import Mathlib

/-!
Verification of the FMTM frontend coordination core: the task-claim state
machine with optimistic locking, the background job polling protocol, and
the offline basemap distribution and caching layer.

Definitions are shallow embeddings of the TypeScript source
(`src/types/enums.ts`, `TaskSelectionPopup.tsx`, `api/Project.ts`,
`api/task.ts`, `SplitTasks.tsx`).  Components whose implementation is not
part of the frontend sources (the remote lock coordinator, the OPFS
key/value store and its eviction policy) are modelled from the
specification and are marked as such in their doc comments.
-/

namespace Fmtm

/-- Task status enumeration, from `src/types/enums.ts` (`enum task_status`). -/
inductive task_status where
  | READY
  | LOCKED_FOR_MAPPING
  | MAPPED
  | LOCKED_FOR_VALIDATION
  | VALIDATED
  | INVALIDATED
  | BAD
  | SPLIT
  | ARCHIVED
deriving DecidableEq, Repr

/-- Numeric value of each status, as assigned by the TypeScript enum
(`READY = 0`, ..., `ARCHIVED = 8`). -/
def task_status.code : task_status → Nat
  | .READY => 0
  | .LOCKED_FOR_MAPPING => 1
  | .MAPPED => 2
  | .LOCKED_FOR_VALIDATION => 3
  | .VALIDATED => 4
  | .INVALIDATED => 5
  | .BAD => 6
  | .SPLIT => 7
  | .ARCHIVED => 8

/-- Reverse mapping of the TypeScript enum (`task_status[n]` in
`api/Project.ts` turns the numeric wire value into the status name). -/
def task_status.label : task_status → String
  | .READY => "READY"
  | .LOCKED_FOR_MAPPING => "LOCKED_FOR_MAPPING"
  | .MAPPED => "MAPPED"
  | .LOCKED_FOR_VALIDATION => "LOCKED_FOR_VALIDATION"
  | .VALIDATED => "VALIDATED"
  | .INVALIDATED => "INVALIDATED"
  | .BAD => "BAD"
  | .SPLIT => "SPLIT"
  | .ARCHIVED => "ARCHIVED"

/-! ## TaskSelectionPopup QR-code visibility

From `TaskSelectionPopup.tsx`:

    const checkIfTaskAssignedOrNot =
      selectedTask?.locked_by_username === authDetails?.username ||
      selectedTask?.locked_by_username === null;
    ...
    {checkIfTaskAssignedOrNot && task_status !== 'LOCKED_FOR_MAPPING' && (
      <QrcodeComponent ... />)}

`none` stands for the JSON `null` in `locked_by_username` and for an
absent `authDetails`.  JavaScript strict equality `null === undefined`
is false, but the disjunction below agrees with the source expression on
every input because the `=== null` disjunct absorbs the one divergent
case. -/

/-- Whether the selected task counts as claimable by the viewer
(`checkIfTaskAssignedOrNot` in `TaskSelectionPopup.tsx`). -/
def checkIfTaskAssignedOrNot (lockedByUsername viewerUsername : Option String) : Bool :=
  lockedByUsername == viewerUsername || lockedByUsername == none

/-- The render condition guarding `QrcodeComponent` in
`TaskSelectionPopup.tsx`: claimable by the viewer and the displayed task
status is not the string `LOCKED_FOR_MAPPING`. -/
def qrCodeShown (lockedByUsername viewerUsername : Option String)
    (displayedStatus : String) : Bool :=
  checkIfTaskAssignedOrNot lockedByUsername viewerUsername &&
    displayedStatus != "LOCKED_FOR_MAPPING"

/-- **C10.** The task-selection popup exposes the QR code iff the task is
claimable by the viewer (`locked_by_username` null or equal to the
viewer's username) and the displayed status is not
`LOCKED_FOR_MAPPING`; a task locked by another mapper never exposes its
QR code, whatever the displayed status. -/
theorem qrCodeShown_iff_claimable (viewer : String) :
    (∀ (lockedBy : Option String) (status : String),
      qrCodeShown lockedBy (some viewer) status = true ↔
        ((lockedBy = none ∨ lockedBy = some viewer) ∧
          status ≠ "LOCKED_FOR_MAPPING"))
    ∧ (∀ (other status : String), other ≠ viewer →
        qrCodeShown (some other) (some viewer) status = false) := by
  constructor
  · intro lockedBy status
    cases lockedBy with
    | none => simp [qrCodeShown, checkIfTaskAssignedOrNot]
    | some u =>
      simp only [qrCodeShown, checkIfTaskAssignedOrNot, Bool.and_eq_true,
        Bool.or_eq_true, beq_iff_eq, bne_iff_ne, Option.some.injEq]
      constructor
      · rintro ⟨h1 | h2, hs⟩
        · exact ⟨Or.inr (by simpa using congrArg id h1), hs⟩
        · exact absurd h2 (by simp)
      · rintro ⟨h1 | h2, hs⟩
        · exact absurd h1 (by simp)
        · exact ⟨Or.inl (by simpa using h2), hs⟩
  · intro other status hne
    simp [qrCodeShown, checkIfTaskAssignedOrNot, hne]

/-- Witness for `qrCodeShown_iff_claimable`: a task locked by `bob` shows
no QR code to `alice`, even in `READY` display state. -/
theorem qrCodeShown_iff_claimable_witness :
    qrCodeShown (some "bob") (some "alice") "READY" = false :=
  (qrCodeShown_iff_claimable "alice").2 "bob" "READY" (by decide)

/-! ## Background job polling

From `api/task.ts` (`getDownloadProjectSubmissionJson`):

    const checkStatus = async () => {
      let statusResponse;
      do {
        const submissionResponse = await CoreModules.axios.post(
          url + background_task_id);
        statusResponse = submissionResponse.data;
        if (statusResponse.status === 'PENDING') {
          await new Promise((resolve) => setTimeout(resolve, 2000));
        }
      } while (statusResponse.status === 'PENDING');
      return statusResponse;
    };

The sequence of server answers is a function `resp : Nat → JobResponse`
(`resp i` answers the i-th request).  The loop is embedded with explicit
fuel: fuel `0` means the loop is still running (it has no bound of its
own), and the trace records every request issued and every
`setTimeout` sleep. -/

/-- A polled job-status response body: `{status, message}`. -/
structure JobResponse where
  status : String
  message : String
deriving DecidableEq, Repr

/-- Observable polling actions: a status request (with its index) or a
`setTimeout` sleep of the given number of milliseconds. -/
inductive PollEvent where
  | request (i : Nat)
  | sleep (ms : Nat)
deriving DecidableEq, Repr

/-- The `do ... while (status === 'PENDING')` loop of `checkStatus`,
from request index `i` with the given fuel.  Returns the trace of
events together with the final response (`none` when the fuel ran out,
i.e. the loop is still going). -/
def checkStatusAux (resp : Nat → JobResponse) : Nat → Nat → List PollEvent × Option JobResponse
  | _, 0 => ([], none)
  | i, fuel + 1 =>
    let r := resp i
    if r.status = "PENDING" then
      let rest := checkStatusAux resp (i + 1) fuel
      (PollEvent.request i :: PollEvent.sleep 2000 :: rest.1, rest.2)
    else
      ([PollEvent.request i], some r)

/-- `checkStatus`, started at the first request. -/
def checkStatus (resp : Nat → JobResponse) (fuel : Nat) : List PollEvent × Option JobResponse :=
  checkStatusAux resp 0 fuel

/-- The trace of a poll that sees `k` `PENDING` answers from request
index `i` and a terminal answer on request `i + k`: each re-query is
separated by exactly one 2000 ms sleep. -/
def pollTraceFrom : Nat → Nat → List PollEvent
  | i, 0 => [PollEvent.request i]
  | i, k + 1 => PollEvent.request i :: PollEvent.sleep 2000 :: pollTraceFrom (i + 1) k

theorem sleep_mem_pollTraceFrom {i k ms : Nat}
    (h : PollEvent.sleep ms ∈ pollTraceFrom i k) : ms = 2000 := by
  induction k generalizing i with
  | zero => simp [pollTraceFrom] at h
  | succ k ih =>
    simp only [pollTraceFrom, List.mem_cons] at h
    rcases h with h | h | h
    · exact absurd h (by simp)
    · exact (PollEvent.sleep.injEq ..).mp h
    · exact ih h

theorem checkStatusAux_firstTerminal (resp : Nat → JobResponse) (k : Nat) :
    ∀ j fuel, (∀ i, i < k → (resp (j + i)).status = "PENDING") →
      (resp (j + k)).status ≠ "PENDING" → k < fuel →
      checkStatusAux resp j fuel = (pollTraceFrom j k, some (resp (j + k))) := by
  induction k with
  | zero =>
    intro j fuel _ hterm hfuel
    obtain ⟨f, rfl⟩ : ∃ f, fuel = f + 1 := ⟨fuel - 1, by omega⟩
    simp only [Nat.add_zero] at hterm
    simp [checkStatusAux, hterm, pollTraceFrom]
  | succ k ih =>
    intro j fuel hpend hterm hfuel
    obtain ⟨f, rfl⟩ : ∃ f, fuel = f + 1 := ⟨fuel - 1, by omega⟩
    have hj : (resp j).status = "PENDING" := by
      have := hpend 0 (by omega)
      simpa using this
    have hrec := ih (j + 1) f
      (fun i hi => by
        have := hpend (i + 1) (by omega)
        simpa [Nat.add_assoc, Nat.add_comm 1 i] using this)
      (by
        have : j + 1 + k = j + (k + 1) := by omega
        simpa [this] using hterm)
      (by omega)
    have harith : j + 1 + k = j + (k + 1) := by omega
    simp only [checkStatusAux, hj, if_pos rfl, hrec, pollTraceFrom]
    simp [harith]

/-- **C4.** The poller re-queries at a fixed 2000 ms interval and stops
exactly when the first terminal status is observed: if the first `k`
answers are `PENDING` and answer `k` is terminal, the poll issues
requests `0..k` with one 2000 ms sleep after each `PENDING` answer,
returns exactly the terminal response (`SUCCESS` or `FAILED` under the
endpoint contract), and a `PENDING` response never terminates the
poll (the loop runs past every `PENDING` answer). -/
theorem checkStatus_terminal (resp : Nat → JobResponse) (k fuel : Nat)
    (hdom : ∀ i, (resp i).status = "PENDING" ∨ (resp i).status = "SUCCESS" ∨
      (resp i).status = "FAILED")
    (hpend : ∀ i, i < k → (resp i).status = "PENDING")
    (hterm : (resp k).status ≠ "PENDING")
    (hfuel : k < fuel) :
    checkStatus resp fuel = (pollTraceFrom 0 k, some (resp k))
    ∧ ((resp k).status = "SUCCESS" ∨ (resp k).status = "FAILED")
    ∧ (∀ ms, PollEvent.sleep ms ∈ (checkStatus resp fuel).1 → ms = 2000) := by
  have heq : checkStatus resp fuel = (pollTraceFrom 0 k, some (resp k)) := by
    have := checkStatusAux_firstTerminal resp k 0 fuel
      (fun i hi => by simpa using hpend i hi)
      (by simpa using hterm) hfuel
    simpa [checkStatus] using this
  refine ⟨heq, ?_, ?_⟩
  · rcases hdom k with h | h | h
    · exact absurd h hterm
    · exact Or.inl h
    · exact Or.inr h
  · intro ms hms
    rw [heq] at hms
    exact sleep_mem_pollTraceFrom hms

/-- Witness for `checkStatus_terminal`: two `PENDING` answers followed by
a `SUCCESS` answer terminate the poll on the third request. -/
theorem checkStatus_terminal_witness :
    checkStatus (fun i => if i < 2 then ⟨"PENDING", ""⟩ else ⟨"SUCCESS", "url"⟩) 5
      = (pollTraceFrom 0 2, some ⟨"SUCCESS", "url"⟩) := by
  have h := checkStatus_terminal
    (fun i => if i < 2 then ⟨"PENDING", ""⟩ else ⟨"SUCCESS", "url"⟩) 2 5
    (fun i => by by_cases h : i < 2 <;> simp [h])
    (fun i hi => by simp [hi])
    (by decide) (by decide)
  simpa using h.1

/-- A job that reports `PENDING` to every status request. -/
def pendingForever : Nat → JobResponse := fun _ => ⟨"PENDING", ""⟩

/-- Number of status requests recorded in a polling trace. -/
def requestCount : List PollEvent → Nat
  | [] => 0
  | PollEvent.request _ :: tr => requestCount tr + 1
  | PollEvent.sleep _ :: tr => requestCount tr

theorem checkStatusAux_pendingForever (fuel : Nat) :
    ∀ j, (checkStatusAux pendingForever j fuel).2 = none
      ∧ requestCount (checkStatusAux pendingForever j fuel).1 = fuel := by
  induction fuel with
  | zero => intro j; simp [checkStatusAux, requestCount]
  | succ fuel ih =>
    intro j
    have h := ih (j + 1)
    simp only [checkStatusAux, pendingForever, if_pos rfl]
    refine ⟨h.1, ?_⟩
    simp only [requestCount]
    omega

/-- **C5, counterexample.** The poll loop has no `maxAttempts` bound:
with a job that stays `PENDING`, after 30 attempts (the claimed budget
at 2000 ms) the loop is still issuing requests — the 31st request
(index 30) is in the trace — and no result of any kind, in particular
no `TimeoutError`, is surfaced (`checkStatus` has no such value in its
result type; the loop only exits on a non-`PENDING` status). -/
theorem checkStatus_no_timeout_counterexample :
    (checkStatus pendingForever 40).2 = none
    ∧ PollEvent.request 30 ∈ (checkStatus pendingForever 40).1 := by
  constructor
  · exact (checkStatusAux_pendingForever 40 0).1
  · decide

/-- **C5, amended.** The poll loop bounds nothing: while the job reports
`PENDING` it issues one request per loop iteration indefinitely (within
any `fuel` iterations it issues exactly `fuel` requests) and surfaces no
result and no `TimeoutError`; it terminates only when a non-`PENDING`
status is observed. -/
theorem checkStatus_pending_unbounded (fuel : Nat) :
    (checkStatus pendingForever fuel).2 = none
    ∧ requestCount (checkStatus pendingForever fuel).1 = fuel :=
  checkStatusAux_pendingForever fuel 0

/-! ## Tile-generation submission and the QR-log polling guard

`GenerateProjectTiles` (`api/Project.ts`) dispatches one GET to
`/projects/{id}/tiles?...` (the server-side generation job) and then a
GET to `/projects/{id}/tiles-list/` — unconditionally, with no
single-flight guard and no handle.

`SplitTasks.tsx` tracks the QR-generation log poll through a
module-level variable:

    let generateProjectLogIntervalCb: any = null;
    ...
    if (generateProjectLog?.status === 'PENDING') {
      if (generateProjectLogIntervalCb === null) {
        generateProjectLogIntervalCb = setInterval(... , 2000);
      }
    }
    // FAILED / SUCCESS: clearInterval(generateProjectLogIntervalCb);
    // unmount cleanup:  clearInterval(generateProjectLogIntervalCb);
    //                   generateProjectLogIntervalCb = null;
-/

/-- HTTP requests issued by the tile-generation submission path. -/
inductive TileReq where
  | generate (projectId : Nat)
  | tilesList (projectId : Nat)
deriving DecidableEq, Repr

/-- Requests issued by one invocation of `GenerateProjectTiles(url, payload)`
for project `projectId`: the generation GET, then the `GetTilesList`
refresh GET.  The thunk consults no state and keeps no handle. -/
def generateProjectTilesRequests (projectId : Nat) : List TileReq :=
  [TileReq.generate projectId, TileReq.tilesList projectId]

/-- State of the QR-log poller: the module-level interval handle
(`generateProjectLogIntervalCb`, `none` for `null`), the ids of all
intervals currently registered with the browser, and the next fresh
interval id. -/
structure PollerState where
  intervalCb : Option Nat
  active : List Nat
  nextId : Nat
deriving DecidableEq, Repr

/-- The three `SplitTasks.tsx` actions that touch the interval handle. -/
inductive LogEvent where
  | qrPendingEffect
  | qrTerminalEffect
  | unmountCleanup
deriving DecidableEq, Repr

/-- `clearInterval(h)`: deregisters the interval `h`; `clearInterval(null)`
is a no-op. -/
def clearIntervalOp (active : List Nat) (h : Option Nat) : List Nat :=
  match h with
  | none => active
  | some i => active.filter (fun j => j != i)

/-- One step of the `SplitTasks` effects.
`qrPendingEffect` is the `status === 'PENDING'` branch: it calls
`setInterval` only when the handle is `null`, otherwise it leaves the
existing handle in place.  `qrTerminalEffect` is the `FAILED`/`SUCCESS`
branch: `clearInterval` without resetting the handle.  `unmountCleanup`
is the effect destructor: `clearInterval` and reset to `null`. -/
def logStep (s : PollerState) : LogEvent → PollerState
  | LogEvent.qrPendingEffect =>
    match s.intervalCb with
    | some _ => s
    | none => ⟨some s.nextId, s.nextId :: s.active, s.nextId + 1⟩
  | LogEvent.qrTerminalEffect =>
    ⟨s.intervalCb, clearIntervalOp s.active s.intervalCb, s.nextId⟩
  | LogEvent.unmountCleanup =>
    ⟨none, clearIntervalOp s.active s.intervalCb, s.nextId⟩

/-- Initial module state: `generateProjectLogIntervalCb = null`, no
interval registered. -/
def logInit : PollerState := ⟨none, [], 0⟩

/-- Run a sequence of `SplitTasks` actions from the initial state. -/
def runLog (es : List LogEvent) : PollerState :=
  es.foldl logStep logInit

/-- Either no interval is registered, or exactly the one the module-level
handle refers to is. -/
def logInv (s : PollerState) : Prop :=
  s.active = [] ∨ ∃ c, s.intervalCb = some c ∧ s.active = [c]

theorem logStep_inv {s : PollerState} (h : logInv s) (e : LogEvent) :
    logInv (logStep s e) := by
  cases e with
  | qrPendingEffect =>
    cases hcb : s.intervalCb with
    | none =>
      have ha : s.active = [] := by
        rcases h with h | ⟨c, hc, _⟩
        · exact h
        · rw [hcb] at hc; cases hc
      right
      exact ⟨s.nextId, by simp [logStep, hcb, ha]⟩
    | some c =>
      rcases h with ha | ⟨d, hd, ha⟩
      · left; simpa [logStep, hcb] using ha
      · right; exact ⟨d, by simpa [logStep, hcb] using hd,
          by simpa [logStep, hcb] using ha⟩
  | qrTerminalEffect =>
    left
    rcases h with ha | ⟨c, hc, ha⟩
    · simp only [logStep, clearIntervalOp, ha]
      cases s.intervalCb <;> simp
    · simp [logStep, clearIntervalOp, hc, ha]
  | unmountCleanup =>
    left
    rcases h with ha | ⟨c, hc, ha⟩
    · simp only [logStep, clearIntervalOp, ha]
      cases s.intervalCb <;> simp
    · simp [logStep, clearIntervalOp, hc, ha]

theorem runLog_inv (es : List LogEvent) : logInv (runLog es) := by
  suffices h : ∀ s, logInv s → logInv (es.foldl logStep s) from
    h logInit (Or.inl rfl)
  induction es with
  | nil => intro s hs; simpa using hs
  | cons e es ih => intro s hs; exact ih _ (logStep_inv hs e)

/-- **C3, counterexample.** Tile-generation submission is not
single-flight: a second `GenerateProjectTiles` call for the same subject
(kind tile-generation, project 5) issues a second server-side generation
request — the combined request log holds two `generate 5` requests, not
one, so a duplicate server-side job is created. -/
theorem generateProjectTiles_duplicate_counterexample :
    (generateProjectTilesRequests 5 ++ generateProjectTilesRequests 5).count
      (TileReq.generate 5) = 2 := by decide

/-- **C3, amended.** Single-flight holds only for the QR-generation log
poll, via the module-level interval handle: after any sequence of
`SplitTasks` actions at most one polling interval is registered, and a
`PENDING` trigger while the handle is already set is a no-op (the
existing handle is kept).  Tile-generation submission
(`GenerateProjectTiles`) has no such guard: every call issues a fresh
server-side generation request. -/
theorem generateProjectLog_single_flight :
    (∀ es : List LogEvent, (runLog es).active.length ≤ 1)
    ∧ (∀ s : PollerState, s.intervalCb.isSome = true →
        logStep s LogEvent.qrPendingEffect = s)
    ∧ (∀ pid : Nat,
        (generateProjectTilesRequests pid).count (TileReq.generate pid) = 1) := by
  refine ⟨?_, ?_, ?_⟩
  · intro es
    rcases runLog_inv es with ha | ⟨c, _, ha⟩ <;> simp [ha]
  · intro s hs
    cases hcb : s.intervalCb with
    | none => rw [hcb] at hs; cases hs
    | some c => simp [logStep, hcb]
  · intro pid
    simp [generateProjectTilesRequests]

/-- Witness for `generateProjectLog_single_flight`: a double `PENDING`
trigger registers a single interval, and the trigger is a no-op on a
state whose handle is already set. -/
theorem generateProjectLog_single_flight_witness :
    (runLog [LogEvent.qrPendingEffect, LogEvent.qrPendingEffect]).active.length ≤ 1
    ∧ logStep ⟨some 7, [7], 8⟩ LogEvent.qrPendingEffect = ⟨some 7, [7], 8⟩ :=
  ⟨generateProjectLog_single_flight.1 [LogEvent.qrPendingEffect, LogEvent.qrPendingEffect],
    generateProjectLog_single_flight.2.1 ⟨some 7, [7], 8⟩ (by decide)⟩

/-- **C6.** After the `SplitTasks` unmount cleanup, reached from any
sequence of poller actions, no polling interval remains registered (so
no further poll request is ever issued for this view's job — requests
are only produced by registered intervals) and the shared module-level
handle is reset to `null`, letting a later poll start cleanly. -/
theorem unmountCleanup_stops_polling (es : List LogEvent) :
    (runLog (es ++ [LogEvent.unmountCleanup])).active = []
    ∧ (runLog (es ++ [LogEvent.unmountCleanup])).intervalCb = none := by
  have hrun : runLog (es ++ [LogEvent.unmountCleanup])
      = logStep (runLog es) LogEvent.unmountCleanup := by
    simp [runLog, List.foldl_append]
  rw [hrun]
  refine ⟨?_, rfl⟩
  rcases runLog_inv es with ha | ⟨c, hc, ha⟩
  · simp only [logStep, clearIntervalOp, ha]
    cases (runLog es).intervalCb <;> simp
  · simp [logStep, clearIntervalOp, hc, ha]

/-! ## Offline basemap download (`DownloadTile` in `api/Project.ts`)

    const response = await CoreModules.axios.get(url, { responseType: 'arraybuffer' });
    const tileData = response.data;
    if (toOpfs) {
      const projectId = payload.id;
      const filePath = projectId + '/all.pmtiles';
      await writeBinaryToOPFS(filePath, tileData);
      dispatch(ProjectActions.SetProjectOpfsBasemapPath(filePath));
      return;
    }
    // otherwise: build a Blob, a.download = filename, a.click(), loading false
    // finally: loading false

The success path is embedded as the list of observable actions it
performs, in order.  The early `return` in the `toOpfs` branch still
runs the `finally` block. -/

/-- Observable actions of `DownloadTile`. -/
inductive DlEvent where
  | setLoading (b : Bool)
  | httpGet (url : String)
  | opfsWrite (path : String) (bytes : List Nat)
  | setOpfsBasemapPath (path : String)
  | browserDownload (filename : String)
deriving DecidableEq, Repr

/-- The `{projectId}/all.pmtiles` key under the project's OPFS namespace. -/
def opfsBasemapPath (projectId : Nat) : String :=
  toString projectId ++ "/all.pmtiles"

/-- Action trace of a successful `DownloadTile(url, payload, toOpfs)` run,
where `payload.id = projectId`, the GET returned `bytes`, and `filename`
is the `content-disposition` filename used by the browser-download
branch. -/
def downloadTileEvents (url : String) (projectId : Nat) (toOpfs : Bool)
    (filename : String) (bytes : List Nat) : List DlEvent :=
  DlEvent.setLoading true :: DlEvent.httpGet url ::
    (if toOpfs then
      [DlEvent.opfsWrite (opfsBasemapPath projectId) bytes,
        DlEvent.setOpfsBasemapPath (opfsBasemapPath projectId),
        DlEvent.setLoading false]
    else
      [DlEvent.browserDownload filename,
        DlEvent.setLoading false, DlEvent.setLoading false])

/-- **C9.** With `toOpfs = true`, `DownloadTile` writes the fetched tile
archive bytes to exactly `{projectId}/all.pmtiles` in the OPFS store,
publishes that same path into project state only after the write (the
write immediately precedes the publish in the trace), and triggers no
browser file download. -/
theorem downloadTile_opfs_layout (url : String) (projectId : Nat)
    (filename : String) (bytes : List Nat) :
    downloadTileEvents url projectId true filename bytes
      = [DlEvent.setLoading true, DlEvent.httpGet url,
          DlEvent.opfsWrite (toString projectId ++ "/all.pmtiles") bytes,
          DlEvent.setOpfsBasemapPath (toString projectId ++ "/all.pmtiles"),
          DlEvent.setLoading false]
    ∧ (∀ f, DlEvent.browserDownload f ∉
        downloadTileEvents url projectId true filename bytes) := by
  constructor
  · simp [downloadTileEvents, opfsBasemapPath]
  · intro f
    simp [downloadTileEvents, opfsBasemapPath]

/-! ## Lock coordinator (modelled from the spec)

The frontend sources ship only the readers of the lock state
(`task_status`, `checkIfTaskAssignedOrNot`, the map styles); the
claim/release transition engine and the server's compare-and-swap
endpoint (`POST /projects/{id}/tasks/{taskId}/status {from, to} →
200 {task} | 409 {currentStatus}`, spec §4.1/§6) are not among them, so
they are modelled here from the specification. -/

/-- A task as the lock coordinator sees it: status plus lock holder. -/
structure ServerTask where
  status : task_status
  lockedBy : Option String
deriving DecidableEq, Repr

/-- Modelled from the spec: the actor-gated transition table of §4.1
(the LockCoordinator implementation is not among the frontend sources).
`none` means the transition is not allowed.  Locking transitions require
a free lock, releasing ones require the acting lock holder; `SPLIT` is
reachable from any non-terminal state and clears the lock; `ARCHIVED`
is terminal. -/
def transition (t : ServerTask) (target : task_status) (actor : String) :
    Option ServerTask :=
  match t.status, target with
  | task_status.ARCHIVED, _ => none
  | task_status.READY, task_status.LOCKED_FOR_MAPPING =>
    if t.lockedBy = none then some ⟨task_status.LOCKED_FOR_MAPPING, some actor⟩ else none
  | task_status.LOCKED_FOR_MAPPING, task_status.MAPPED =>
    if t.lockedBy = some actor then some ⟨task_status.MAPPED, none⟩ else none
  | task_status.MAPPED, task_status.LOCKED_FOR_VALIDATION =>
    some ⟨task_status.LOCKED_FOR_VALIDATION, some actor⟩
  | task_status.LOCKED_FOR_VALIDATION, task_status.VALIDATED =>
    if t.lockedBy = some actor then some ⟨task_status.VALIDATED, none⟩ else none
  | task_status.LOCKED_FOR_VALIDATION, task_status.INVALIDATED =>
    if t.lockedBy = some actor then some ⟨task_status.INVALIDATED, none⟩ else none
  | task_status.LOCKED_FOR_VALIDATION, task_status.BAD =>
    if t.lockedBy = some actor then some ⟨task_status.BAD, none⟩ else none
  | task_status.INVALIDATED, task_status.LOCKED_FOR_MAPPING =>
    if t.lockedBy = none then some ⟨task_status.LOCKED_FOR_MAPPING, some actor⟩ else none
  | _, task_status.SPLIT => some ⟨task_status.SPLIT, none⟩
  | _, _ => none

/-- The lock/status invariant of §3: the lock holder is non-null iff the
status is one of the two locked states.  (`lockedBy : Option String`
already holds at most one actor.) -/
def lockInvariant (t : ServerTask) : Prop :=
  t.lockedBy.isSome = true ↔
    (t.status = task_status.LOCKED_FOR_MAPPING ∨
      t.status = task_status.LOCKED_FOR_VALIDATION)

theorem transition_lockInvariant :
    ∀ (t : ServerTask) (target : task_status) (actor : String) (t2 : ServerTask),
      lockInvariant t → transition t target actor = some t2 → lockInvariant t2 := by
  rintro ⟨st, lb⟩ target actor t2 hInv ht
  unfold lockInvariant at hInv ⊢
  cases st <;> cases target <;>
    simp only [transition] at ht <;>
    (try split at ht) <;>
    (try cases ht) <;>
    simp_all

/-- Apply a list of `(target, actor)` transition attempts; an attempt the
table rejects leaves the task unchanged. -/
def runTransitions (t : ServerTask) : List (task_status × String) → ServerTask
  | [] => t
  | step :: rest => runTransitions ((transition t step.1 step.2).getD t) rest

/-- **C2.** Every transition of the lock coordinator preserves the lock
invariant — the lock holder is non-null iff the status is
`LOCKED_FOR_MAPPING` or `LOCKED_FOR_VALIDATION` (and being an
`Option`, `lockedBy` holds at most one actor) — and every state
reachable from a fresh `READY` task satisfies it. -/
theorem lockedBy_iff_locked_status :
    (∀ (t : ServerTask) (target : task_status) (actor : String) (t2 : ServerTask),
      lockInvariant t → transition t target actor = some t2 → lockInvariant t2)
    ∧ ∀ steps : List (task_status × String),
        lockInvariant (runTransitions ⟨task_status.READY, none⟩ steps) := by
  refine ⟨transition_lockInvariant, ?_⟩
  intro steps
  suffices h : ∀ t, lockInvariant t → lockInvariant (runTransitions t steps) from
    h _ (by simp [lockInvariant])
  induction steps with
  | nil => intro t ht; simpa [runTransitions] using ht
  | cons step rest ih =>
    intro t ht
    cases htr : transition t step.1 step.2 with
    | none => exact ih _ (by simpa [runTransitions, htr] using ht)
    | some t2 =>
      have := transition_lockInvariant t step.1 step.2 t2 ht htr
      exact ih _ (by simpa [runTransitions, htr] using this)

/-- Witness for `lockedBy_iff_locked_status`: claiming a fresh `READY`
task yields a locked task satisfying the invariant. -/
theorem lockedBy_iff_locked_status_witness :
    lockInvariant ⟨task_status.LOCKED_FOR_MAPPING, some "alice"⟩ :=
  lockedBy_iff_locked_status.1 ⟨task_status.READY, none⟩
    task_status.LOCKED_FOR_MAPPING "alice"
    ⟨task_status.LOCKED_FOR_MAPPING, some "alice"⟩ (by simp [lockInvariant]) (by rfl)

/-- Result of the server's compare-and-swap status endpoint:
`200 {task}` or `409 {currentStatus}`. -/
inductive CasResult where
  | ok (t : ServerTask)
  | conflict (current : ServerTask)
deriving DecidableEq, Repr

/-- Modelled from the spec: the server applies the transition only when
the request's expected prior status matches the authoritative current
status; otherwise it answers 409 with the authoritative state. -/
def serverCas (t : ServerTask) (expected target : task_status) (actor : String) :
    CasResult :=
  if t.status = expected then
    match transition t target actor with
    | some t2 => CasResult.ok t2
    | none => CasResult.conflict t
  else CasResult.conflict t

/-- A client's local authoritative view (its TaskRegistry entry). -/
structure ClientView where
  registry : ServerTask
deriving DecidableEq, Repr

/-- Outcome of `claim` as surfaced to the caller. -/
inductive ClaimOutcome where
  | success (t : ServerTask)
  | conflictError
deriving DecidableEq, Repr

/-- Modelled from the spec: `claim(taskId, targetStatus, actor)` (§4.1).
The request carries the expected prior status read from the client's
TaskRegistry; on 200 the registry takes the confirmed task, on 409 the
client refetches the authoritative state into the registry — it never
keeps its optimistic write — and surfaces `ConflictError`. -/
def claim (server : ServerTask) (client : ClientView) (target : task_status)
    (actor : String) : ClaimOutcome × ServerTask × ClientView :=
  match serverCas server client.registry.status target actor with
  | CasResult.ok t2 => (ClaimOutcome.success t2, t2, ⟨t2⟩)
  | CasResult.conflict cur => (ClaimOutcome.conflictError, server, ⟨cur⟩)

/-- **C1.** Both claims carry the expected prior status (`READY`, read
from each client's registry); the server serializes them, so of two
concurrent claims by different actors on the same `READY` task the first
succeeds and locks the task for its actor, the second gets a 409 and
surfaces `ConflictError`, and the loser's registry is refetched to the
authoritative locked state instead of keeping its optimistic write. -/
theorem claim_cas_conflict (a b : String) (_hab : a ≠ b) :
    (claim ⟨task_status.READY, none⟩ ⟨⟨task_status.READY, none⟩⟩
        task_status.LOCKED_FOR_MAPPING a).1
      = ClaimOutcome.success ⟨task_status.LOCKED_FOR_MAPPING, some a⟩
    ∧ (claim ⟨task_status.LOCKED_FOR_MAPPING, some a⟩
          ⟨⟨task_status.READY, none⟩⟩ task_status.LOCKED_FOR_MAPPING b).1
      = ClaimOutcome.conflictError
    ∧ (claim ⟨task_status.LOCKED_FOR_MAPPING, some a⟩
          ⟨⟨task_status.READY, none⟩⟩ task_status.LOCKED_FOR_MAPPING b).2.1
      = ⟨task_status.LOCKED_FOR_MAPPING, some a⟩
    ∧ (claim ⟨task_status.LOCKED_FOR_MAPPING, some a⟩
          ⟨⟨task_status.READY, none⟩⟩ task_status.LOCKED_FOR_MAPPING b).2.2.registry
      = ⟨task_status.LOCKED_FOR_MAPPING, some a⟩ := by
  refine ⟨?_, rfl, rfl, rfl⟩
  simp [claim, serverCas, transition]

/-- Witness for `claim_cas_conflict` at actors `alice` and `bob`. -/
theorem claim_cas_conflict_witness :
    (claim ⟨task_status.READY, none⟩ ⟨⟨task_status.READY, none⟩⟩
        task_status.LOCKED_FOR_MAPPING "alice").1
      = ClaimOutcome.success ⟨task_status.LOCKED_FOR_MAPPING, some "alice"⟩ :=
  (claim_cas_conflict "alice" "bob" (by decide)).1

/-! ## Offline tile cache (modelled from the spec)

`DownloadTile` hands the archive to `writeBinaryToOPFS`, whose
implementation (and the eviction-managed store of §4.3) is not among
the frontend sources; both are modelled here from the specification:
staged, atomically-published writes and an LRU byte-budget store. -/

/-- Modelled from the spec: the OPFS blob store behind
`writeBinaryToOPFS` (§4.3).  `entries` are the published, visible
entries; `staging` is the temporary location a write streams into
before being atomically published.  Reads never see `staging`. -/
structure BlobStore where
  entries : List (String × List Nat)
  staging : List (String × List Nat)
deriving DecidableEq, Repr

/-- `get(key)`: lookup among published entries only; `none` is `Miss`. -/
def BlobStore.get (st : BlobStore) (k : String) : Option (List Nat) :=
  (st.entries.find? (fun e => e.1 == k)).map Prod.snd

/-- `put(key, bytes)`: stage the bytes, then atomically publish them,
replacing any previous entry for the key and dropping the staged copy. -/
def BlobStore.put (st : BlobStore) (k : String) (bytes : List Nat) : BlobStore :=
  ⟨(k, bytes) :: st.entries.filter (fun e => e.1 != k),
    st.staging.filter (fun e => e.1 != k)⟩

/-- A write interrupted mid-stream: some bytes reached the staging
location but the publish step never ran. -/
def BlobStore.interruptedPut (st : BlobStore) (k : String) (partialBytes : List Nat) :
    BlobStore :=
  ⟨st.entries, (k, partialBytes) :: st.staging⟩

/-- **C7.** Cache round-trip and write atomicity: `put(key, bytes)`
followed by `get(key)` returns exactly the written bytes; an
interrupted write changes no visible entry — in particular a key that
was a `Miss` before the interrupted write is still a `Miss`, and no
partial bytes are ever observable. -/
theorem cache_roundtrip_atomic (st : BlobStore) (k : String) (bytes partialBytes : List Nat) :
    (st.put k bytes).get k = some bytes
    ∧ (st.interruptedPut k partialBytes).get k = st.get k
    ∧ (st.get k = none → (st.interruptedPut k partialBytes).get k = none) := by
  refine ⟨?_, rfl, fun h => h⟩
  simp [BlobStore.get, BlobStore.put]

/-- Witness for `cache_roundtrip_atomic`: on an empty store, a write of
`[1, 2]` to `3/all.pmtiles` interrupted mid-stream leaves the key a
`Miss`. -/
theorem cache_roundtrip_atomic_witness :
    ((⟨[], []⟩ : BlobStore).interruptedPut "3/all.pmtiles" [1, 2]).get "3/all.pmtiles"
      = none :=
  (cache_roundtrip_atomic ⟨[], []⟩ "3/all.pmtiles" [9] [1, 2]).2.2 rfl

/-- A cache entry: key, size and last-access time (§3 `CacheEntry`). -/
structure Entry where
  key : String
  sizeBytes : Nat
  lastAccessedAt : Nat
deriving DecidableEq, Repr

/-- Modelled from the spec: the byte-budget tile cache of §4.3.
`reading` holds the keys currently being read. -/
structure TileCache where
  budget : Nat
  entries : List Entry
  reading : List String
deriving DecidableEq, Repr

def totalSize (es : List Entry) : Nat :=
  (es.map Entry.sizeBytes).sum

/-- Eviction candidates for a write of `newKey`: entries that are not
currently being read and are not the entry being written. -/
def candidates (reading : List String) (newKey : String) (es : List Entry) :
    List Entry :=
  es.filter (fun e => !(reading.contains e.key) && e.key != newKey)

/-- The least-recently-used entry of a list (minimal `lastAccessedAt`). -/
def oldest : List Entry → Option Entry
  | [] => none
  | e :: es =>
    match oldest es with
    | none => some e
    | some m => if e.lastAccessedAt ≤ m.lastAccessedAt then some e else some m

/-- Evict least-recently-used candidates until the total fits the
budget or no candidate is left. -/
def evictLoop (budget : Nat) (reading : List String) (newKey : String) :
    Nat → List Entry → List Entry
  | 0, es => es
  | fuel + 1, es =>
    if totalSize es ≤ budget then es
    else
      match oldest (candidates reading newKey es) with
      | none => es
      | some v => evictLoop budget reading newKey fuel (es.erase v)

/-- Modelled from the spec: `put` inserts the entry, runs the lazy
eviction pass, and — if the store still exceeds the budget even after
eviction — rolls the write back (`CacheWriteError`, `false`), leaving
the cache unchanged. -/
def TileCache.put (c : TileCache) (k : String) (sz now : Nat) : TileCache × Bool :=
  let inserted := Entry.mk k sz now :: c.entries.filter (fun e => e.key != k)
  let after := evictLoop c.budget c.reading k inserted.length inserted
  if totalSize after ≤ c.budget then (⟨c.budget, after, c.reading⟩, true)
  else (c, false)

/-- Cache operations: a write, or a read beginning/ending (reads pin
their entry against eviction). -/
inductive CacheOp where
  | putOp (k : String) (sz : Nat) (now : Nat)
  | beginRead (k : String)
  | endRead (k : String)
deriving DecidableEq, Repr

def stepCache (c : TileCache) : CacheOp → TileCache
  | CacheOp.putOp k sz now => (c.put k sz now).1
  | CacheOp.beginRead k => ⟨c.budget, c.entries, k :: c.reading⟩
  | CacheOp.endRead k => ⟨c.budget, c.entries, c.reading.erase k⟩

/-- Run a sequence of cache operations from an empty cache with the
given byte budget. -/
def runCache (budget : Nat) (ops : List CacheOp) : TileCache :=
  ops.foldl stepCache ⟨budget, [], []⟩

theorem put_fst_budget (c : TileCache) (k : String) (sz now : Nat) :
    ((c.put k sz now).1).budget = c.budget := by
  simp only [TileCache.put]
  split <;> rfl

theorem put_fst_le_budget (c : TileCache) (k : String) (sz now : Nat)
    (h : totalSize c.entries ≤ c.budget) :
    totalSize ((c.put k sz now).1).entries ≤ ((c.put k sz now).1).budget := by
  simp only [TileCache.put]
  split
  case isTrue h2 => exact h2
  case isFalse _ => exact h

theorem stepCache_budget (c : TileCache) (op : CacheOp) :
    (stepCache c op).budget = c.budget := by
  cases op with
  | putOp k sz now => exact put_fst_budget c k sz now
  | beginRead k => rfl
  | endRead k => rfl

theorem stepCache_le_budget (c : TileCache) (op : CacheOp)
    (h : totalSize c.entries ≤ c.budget) :
    totalSize (stepCache c op).entries ≤ (stepCache c op).budget := by
  cases op with
  | putOp k sz now => exact put_fst_le_budget c k sz now h
  | beginRead k => exact h
  | endRead k => exact h

theorem oldest_eq_none {es : List Entry} (h : oldest es = none) : es = [] := by
  cases es with
  | nil => rfl
  | cons e es =>
    simp only [oldest] at h
    cases holds : oldest es with
    | none => rw [holds] at h; cases h
    | some m =>
      rw [holds] at h
      by_cases hle : e.lastAccessedAt ≤ m.lastAccessedAt <;> simp [hle] at h

theorem oldest_min : ∀ (es : List Entry) (v : Entry), oldest es = some v →
    v ∈ es ∧ ∀ e ∈ es, v.lastAccessedAt ≤ e.lastAccessedAt := by
  intro es
  induction es with
  | nil => intro v hv; cases hv
  | cons e es ih =>
    intro v hv
    simp only [oldest] at hv
    cases holds : oldest es with
    | none =>
      rw [holds] at hv
      cases hv
      have : es = [] := oldest_eq_none holds
      subst this
      exact ⟨List.mem_cons_self _ _, by intro x hx; simp at hx; simp [hx]⟩
    | some m =>
      rw [holds] at hv
      dsimp only at hv
      obtain ⟨hm, hmin⟩ := ih m holds
      by_cases hle : e.lastAccessedAt ≤ m.lastAccessedAt
      · rw [if_pos hle] at hv
        cases hv
        refine ⟨List.mem_cons_self _ _, ?_⟩
        intro x hx
        rcases List.mem_cons.mp hx with rfl | hx
        · exact Nat.le_refl _
        · exact Nat.le_trans hle (hmin x hx)
      · rw [if_neg hle] at hv
        cases hv
        refine ⟨List.mem_cons_of_mem _ hm, ?_⟩
        intro x hx
        rcases List.mem_cons.mp hx with rfl | hx
        · exact Nat.le_of_not_le hle
        · exact hmin x hx

/-- **C8.** Budget invariant with LRU eviction: after any sequence of
cache operations from an empty cache the total cached bytes never
exceed the configured budget, and the victim `oldest` selects for an
over-budget write is an existing entry that is not currently being
read and has the least `lastAccessedAt` among eviction candidates. -/
theorem cache_budget_lru :
    (∀ (budget : Nat) (ops : List CacheOp),
      totalSize (runCache budget ops).entries ≤ budget)
    ∧ (∀ (reading : List String) (newKey : String) (es : List Entry) (v : Entry),
        oldest (candidates reading newKey es) = some v →
          v ∈ es ∧ reading.contains v.key = false ∧
            ∀ e ∈ candidates reading newKey es,
              v.lastAccessedAt ≤ e.lastAccessedAt) := by
  constructor
  · intro budget ops
    have hinv : ∀ (l : List CacheOp) (c : TileCache),
        totalSize c.entries ≤ c.budget →
        totalSize (l.foldl stepCache c).entries ≤ (l.foldl stepCache c).budget := by
      intro l
      induction l with
      | nil => intro c hc; simpa using hc
      | cons op rest ih => intro c hc; exact ih _ (stepCache_le_budget c op hc)
    have hbud : ∀ (l : List CacheOp) (c : TileCache),
        (l.foldl stepCache c).budget = c.budget := by
      intro l
      induction l with
      | nil => intro c; rfl
      | cons op rest ih =>
        intro c
        rw [List.foldl_cons, ih, stepCache_budget]
    have h1 := hinv ops ⟨budget, [], []⟩ (by simp [totalSize])
    have h2 := hbud ops ⟨budget, [], []⟩
    simpa [runCache, h2] using h1
  · intro reading newKey es v hv
    obtain ⟨hmem, hmin⟩ := oldest_min _ v hv
    have hfil := List.of_mem_filter hmem
    simp only [Bool.and_eq_true, Bool.not_eq_eq_eq_not, Bool.not_true, bne_iff_ne] at hfil
    exact ⟨List.mem_of_mem_filter hmem, hfil.1, hmin⟩

/-- Witness for `cache_budget_lru`: among entries `a` (age 10), `b`
(age 1, being read) and `c` (age 3), the victim is `c` — the
least-recently-used entry that is not being read. -/
theorem cache_budget_lru_witness :
    (⟨"c", 5, 3⟩ : Entry) ∈ ([⟨"a", 5, 10⟩, ⟨"b", 5, 1⟩, ⟨"c", 5, 3⟩] : List Entry)
    ∧ (["b"] : List String).contains "c" = false
    ∧ ∀ e ∈ candidates ["b"] "new" [⟨"a", 5, 10⟩, ⟨"b", 5, 1⟩, ⟨"c", 5, 3⟩],
        (⟨"c", 5, 3⟩ : Entry).lastAccessedAt ≤ e.lastAccessedAt :=
  cache_budget_lru.2 ["b"] "new" [⟨"a", 5, 10⟩, ⟨"b", 5, 1⟩, ⟨"c", 5, 3⟩]
    ⟨"c", 5, 3⟩ (by decide)

end Fmtm
